import Mathlib

/-!
# Light-bar detection: shape filter, brightness validator and pairing loop

A shallow embedding of `2024211699.cpp`.

Modelling conventions.

* A C++ `double` that is known to be finite is an exact rational (`ℚ`): no rounding is
  modelled, and a decimal literal such as `1.2` or `0.3` denotes its decimal value.
* A `double` that is the result of a division whose divisor may be zero is a `Dbl`: a finite
  rational, `+inf`, `-inf` or `NaN`, with the IEEE-754 rules for these special values
  (zero is taken as `+0`).
* `int` is `ℤ` and `size_t` is `ℕ`; image dimensions, never negative, are `ℕ`. The one `int`
  multiplication of the program (`hsv.rows * hsv.cols`) wraps to 32 bits, as the compiled
  program does.
* `uchar` is `Fin 256`.
* `pow(a, 0.1)` is irrational in general; the only use of it, the comparison
  `heightDiff < pow(avgArea, 0.1)`, is decided exactly (`ltPowTenth`) and proved equal to the
  comparison with the real tenth root (`ltPowTenth_iff_rpow`).
* Every OpenCV routine is external: the record `OpenCV` holds one function per routine the
  program calls, and the program's functions take that record as a parameter.
-/

set_option linter.unusedVariables false

namespace LampDetect

/-! ## Doubles with special values -/

/-- An IEEE `double`: a finite value (an exact rational), an infinity, or NaN. -/
inductive Dbl where
  | fin (q : ℚ)
  | posInf
  | negInf
  | nan
  deriving DecidableEq

namespace Dbl

/-- IEEE subtraction `x - y`. -/
def sub : Dbl → Dbl → Dbl
  | nan, _ => nan
  | _, nan => nan
  | fin a, fin b => fin (a - b)
  | fin _, posInf => negInf
  | fin _, negInf => posInf
  | posInf, posInf => nan
  | posInf, _ => posInf
  | negInf, negInf => nan
  | negInf, _ => negInf

/-- IEEE division `x / y`: a non-zero finite value over zero is an infinity, `0 / 0` and
`inf / inf` are NaN. -/
def div : Dbl → Dbl → Dbl
  | nan, _ => nan
  | _, nan => nan
  | fin a, fin b =>
    if b = 0 then (if 0 < a then posInf else if a < 0 then negInf else nan) else fin (a / b)
  | fin _, posInf => fin 0
  | fin _, negInf => fin 0
  | posInf, fin b => if 0 ≤ b then posInf else negInf
  | negInf, fin b => if 0 ≤ b then negInf else posInf
  | posInf, posInf => nan
  | posInf, negInf => nan
  | negInf, posInf => nan
  | negInf, negInf => nan

/-- IEEE comparison `x > y`: false as soon as one side is NaN. -/
def gt : Dbl → Dbl → Bool
  | nan, _ => false
  | _, nan => false
  | fin a, fin b => decide (b < a)
  | fin _, posInf => false
  | fin _, negInf => true
  | posInf, posInf => false
  | posInf, _ => true
  | negInf, _ => false

end Dbl

/-- The value an `int` takes when the mathematical result `z` is stored in 32 bits. -/
def wrapInt32 (z : ℤ) : ℤ := (z + 2 ^ 31) % 2 ^ 32 - 2 ^ 31

/-- The conversion `static_cast<int>(q)` of a finite double: truncation toward zero. -/
def truncToInt (q : ℚ) : ℤ := if 0 ≤ q then ⌊q⌋ else ⌈q⌉

/-! ## Data model -/

/-- The type `cv::Point`: integer pixel coordinates. -/
structure Point where
  x : ℤ
  y : ℤ
  deriving DecidableEq

/-- The type `cv::Rect`: origin, width and height. -/
structure Rect where
  x : ℤ
  y : ℤ
  width : ℤ
  height : ℤ
  deriving DecidableEq

/-- The type `cv::Vec3b`: the three `uchar` channels of one pixel, `pixel[0]`, `pixel[1]`
and `pixel[2]`. -/
structure Vec3b where
  c0 : Fin 256
  c1 : Fin 256
  c2 : Fin 256
  deriving DecidableEq

/-- The type `cv::Mat` of `Vec3b`: the dimensions and the pixel at `(row, col)`. -/
structure Mat where
  rows : ℕ
  cols : ℕ
  px : ℤ → ℤ → Vec3b

/-- The access `frame.at<Vec3b>(point)`: OpenCV reads row `point.y`, column `point.x`. -/
def Mat.atPoint (m : Mat) (p : Point) : Vec3b := m.px p.y p.x

/-- An outline: `vector<Point>`. -/
abbrev Contour := List Point

/-- The fields of `cv::Moments` the program reads. -/
structure Moments where
  m00 : ℚ
  m10 : ℚ
  m01 : ℚ

/-- The OpenCV routines the program calls; all are external to it. -/
structure OpenCV where
  cvtColorBGR2HSV : Mat → Mat
  cvtColorBGR2GRAY : Mat → Mat
  GaussianBlur : Mat → ℕ → ℚ → Mat
  Canny : Mat → ℚ → ℚ → ℕ → Mat
  equalizeHistChannel : Mat → ℕ → Mat
  findContours : Mat → List Contour
  arcLength : Contour → Bool → ℚ
  boundingRect : Contour → Rect
  approxPolyDP : Contour → ℚ → Bool → List Point
  contourArea : Contour → ℚ
  moments : Contour → Moments

/-- The class `LampBar`: area, centre coordinates and bounding box. -/
structure LampBar where
  area : ℚ
  x : ℚ
  y : ℚ
  boundingBox : Rect
  deriving DecidableEq

/-- The method `LampBar::center`. -/
def LampBar.center (l : LampBar) : Point := ⟨truncToInt l.x, truncToInt l.y⟩

/-! ## `UtilityFunctions::calculateAverageSaturationAndBrightness` -/

/-- The two nested `for` loops: the sums of channel 1 and of channel 2 over all pixels. -/
def channelSums (hsv : Mat) : ℚ × ℚ :=
  (List.range hsv.rows).foldl
    (fun (acc : ℚ × ℚ) (row : ℕ) =>
      (List.range hsv.cols).foldl
        (fun (acc : ℚ × ℚ) (col : ℕ) =>
          let hsvPixel := hsv.px row col
          (acc.1 + (hsvPixel.c1 : ℕ), acc.2 + (hsvPixel.c2 : ℕ)))
        acc)
    (0, 0)

/-- The function `calculateAverageSaturationAndBrightness`: both channel sums divided by
`int pixelCount = hsv.rows * hsv.cols`. There is no test of `pixelCount`. -/
def calculateAverageSaturationAndBrightness (cv : OpenCV) (frame : Mat) : Dbl × Dbl :=
  let hsv := cv.cvtColorBGR2HSV frame
  let pixelCount : ℤ := wrapInt32 ((hsv.rows : ℤ) * (hsv.cols : ℤ))
  let sums := channelSums hsv
  (Dbl.div (.fin sums.1) (.fin pixelCount), Dbl.div (.fin sums.2) (.fin pixelCount))

/-! ## `detectEdges`, `balanceFrame` -/

/-- The function `detectEdges`: grey conversion, 9x9 blur, Canny. -/
def detectEdges (cv : OpenCV) (frame : Mat) : Mat :=
  let gray := cv.cvtColorBGR2GRAY frame
  let blurred := cv.GaussianBlur gray 9 2.0
  cv.Canny blurred 40 120 3

/-- The function `balanceFrame`: HSV conversion with the value channel equalised. -/
def balanceFrame (cv : OpenCV) (frame : Mat) : Mat :=
  let hsv := cv.cvtColorBGR2HSV frame
  cv.equalizeHistChannel hsv 2

/-! ## `isBrighterAndMoreSaturatedThanAverage` -/

/-- The function `isBrighterAndMoreSaturatedThanAverage`: reads channels 1 and 2 of `frame`
at `point` and compares their relative excess over the two averages with `0.3`. -/
def isBrighterAndMoreSaturatedThanAverage (frame : Mat) (point : Point)
    (averageSaturation averageBrightness : Dbl) : Bool :=
  let pixel := frame.atPoint point
  let saturation : Dbl := .fin (pixel.c1 : ℕ)
  let brightness : Dbl := .fin (pixel.c2 : ℕ)
  if Dbl.gt (Dbl.div (Dbl.sub saturation averageSaturation) averageSaturation) (.fin 0.3)
      && Dbl.gt (Dbl.div (Dbl.sub brightness averageBrightness) averageBrightness) (.fin 0.3)
  then true
  else false

/-! ## `ContourFilter::filterContours` -/

/-- The condition of the `if` in the second loop of `filterContours`, with the C++ precedence:
`A || B && C` is `A || (B && C)`. -/
def keepCondition (area aspectRatio : ℚ) (approxSize : ℕ) : Bool :=
  (decide (area > 25) && decide (area < 500) && decide (aspectRatio ≥ 1.2)
      && decide (aspectRatio ≤ 3.5))
    || ((decide (area ≥ 500) && decide (aspectRatio ≥ 2) && decide (aspectRatio ≤ 6))
      && (decide (approxSize ≥ 3) && decide (approxSize ≤ 8)))

/-- The function `filterContours`: the first loop fills `perimeters`, `boundingBoxes` and
`aspectRatios`, the second one pushes `contours[j]` when the condition holds. -/
def filterContours (cv : OpenCV) (frame : Mat) (contours : List Contour) : List Contour :=
  if contours.isEmpty then []
  else
    let perimeters := contours.map (fun c => cv.arcLength c true)
    let boundingBoxes := contours.map cv.boundingRect
    let aspectRatios :=
      boundingBoxes.map (fun b => (b.height : ℚ) / ((b.width : ℚ) + 1e-6))
    (List.range contours.length).filterMap (fun j =>
      let contour := contours.getD j []
      let epsilon := 0.02 * perimeters.getD j 0
      let approx := cv.approxPolyDP contour epsilon true
      let area := cv.contourArea contour
      if keepCondition area (aspectRatios.getD j 0) approx.length then some contour else none)

/-! ## `matchLampBars` -/

/-- The body of the `for` loop of `matchLampBars` for one filtered contour. -/
def lampBarOfContour (cv : OpenCV) (frame : Mat) (averageSaturation averageBrightness : Dbl)
    (contour : Contour) : Option LampBar :=
  let area := cv.contourArea contour
  if area > 20.0 then
    let M := cv.moments contour
    let x := truncToInt (M.m10 / M.m00 + 0.5)
    let y := truncToInt (M.m01 / M.m00 + 0.5)
    let center : Point := ⟨x, y⟩
    let boundingBox := cv.boundingRect contour
    if isBrighterAndMoreSaturatedThanAverage frame center averageSaturation averageBrightness
    then some ⟨area, x, y, boundingBox⟩
    else none
  else none

/-- The function `matchLampBars`. The balanced, blurred HSV image `frame_hsv` is computed and
never read: the validator receives `frame` itself. -/
def matchLampBars (cv : OpenCV) (frame : Mat) : List LampBar :=
  let frame_hsv := cv.GaussianBlur (balanceFrame cv frame) 3 1
  let edges := detectEdges cv frame
  let avgSaturationBrightness := calculateAverageSaturationAndBrightness cv frame
  let averageSaturation := avgSaturationBrightness.1
  let averageBrightness := avgSaturationBrightness.2
  let contours := cv.findContours edges
  let filteredContours := filterContours cv edges contours
  filteredContours.filterMap
    (lampBarOfContour cv frame averageSaturation averageBrightness)

/-! ## `drawLampLines`: the pairing loop -/

/-- The test `x < pow(a, 0.1)` for a non-negative `x`, decided exactly: the tenth root of a
rational is irrational in general, and `x < a ^ (1/10)` holds exactly when `x ^ 10 < a`
(`ltPowTenth_iff_rpow`). For `a < 0` the C++ `pow` is NaN and the test is false, as here. -/
def ltPowTenth (x a : ℚ) : Bool := decide (x ^ 10 < a)

/-- The body of the inner loop: whether a line is drawn between lamps `i` and `j`.
`areaDiffRatio` is computed and never read. -/
def linkTest (li lj : LampBar) : Bool :=
  let areaDiffRatio := |(li.area - lj.area) / li.area|
  let heightDiff := |li.y - lj.y|
  let avgArea := (li.area + lj.area) / 2
  -- `heightDiffThreshold = pow(avgArea, 0.1)`; the test is `heightDiff < heightDiffThreshold`
  ltPowTenth heightDiff avgArea

/-- The index pairs the two nested loops visit, in order: `i` from `0` to `n - 1`, and for
each `i`, `j` from `i + 1` to `n - 1`. -/
def examinedPairs (n : ℕ) : List (ℕ × ℕ) :=
  (List.range n).flatMap (fun i => (List.range' (i + 1) (n - (i + 1))).map (fun j => (i, j)))

/-- The index pairs for which `line` is called, in order. -/
def linkedPairs (lamps : List LampBar) : List (ℕ × ℕ) :=
  (examinedPairs lamps.length).filter (fun p =>
    match lamps.get? p.1, lamps.get? p.2 with
    | some li, some lj => linkTest li lj
    | _, _ => false)

/-- What `drawLampLines` draws. -/
inductive DrawCmd where
  | circle (center : Point)
  | rectangle (box : Rect)
  | line (p q : Point)
  deriving DecidableEq

/-- The function `drawLampLines`: a circle and a rectangle per lamp, then a line per linked
pair. -/
def drawLampLines (lamps : List LampBar) : List DrawCmd :=
  (lamps.flatMap (fun lamp => [DrawCmd.circle lamp.center, DrawCmd.rectangle lamp.boundingBox]))
    ++ (linkedPairs lamps).filterMap (fun p =>
      match lamps.get? p.1, lamps.get? p.2 with
      | some li, some lj => some (DrawCmd.line li.center lj.center)
      | _, _ => none)

/-! ## Quantities the statements refer to -/

/-- The value stored in `aspectRatios[j]` for the contour `contours[j]`. -/
def aspectRatioOf (cv : OpenCV) (contour : Contour) : ℚ :=
  ((cv.boundingRect contour).height : ℚ) / (((cv.boundingRect contour).width : ℚ) + 1e-6)

/-- The size of `approx` for the contour `contours[j]`. -/
def approxSizeOf (cv : OpenCV) (contour : Contour) : ℕ :=
  (cv.approxPolyDP contour (0.02 * cv.arcLength contour true) true).length

/-- The sum of channel 1 over all pixels, as a natural number. -/
def natSum1 (hsv : Mat) : ℕ :=
  ((List.range hsv.rows).map (fun (row : ℕ) =>
    ((List.range hsv.cols).map (fun (col : ℕ) => ((hsv.px row col).c1 : ℕ))).sum)).sum

/-- The sum of channel 2 over all pixels, as a natural number. -/
def natSum2 (hsv : Mat) : ℕ :=
  ((List.range hsv.rows).map (fun (row : ℕ) =>
    ((List.range hsv.cols).map (fun (col : ℕ) => ((hsv.px row col).c2 : ℕ))).sum)).sum

/-! ## Example data -/

/-- A frame of the given size whose every pixel is `p`. -/
def constFrame (rows cols : ℕ) (p : Vec3b) : Mat := ⟨rows, cols, fun _ _ => p⟩

/-- OpenCV's 8-bit BGR to HSV conversion of one pixel, for the two channels the program
reads: V = max(B, G, R) and S = 255 (V - min) / V rounded to nearest, 0 when V = 0. The hue
is never read by the program and is left 0. -/
def sampleHsvPixel (p : Vec3b) : Vec3b :=
  let v := max p.c0.val (max p.c1.val p.c2.val)
  let m := min p.c0.val (min p.c1.val p.c2.val)
  let s := if v = 0 then 0 else (2 * (255 * (v - m)) + v) / (2 * v)
  ⟨0, Fin.ofNat s, Fin.ofNat v⟩

/-- Twice the signed shoelace sum of a closed polygon. -/
def crossSum : List Point → Point → ℤ
  | [], _ => 0
  | [p], first => p.x * first.y - first.x * p.y
  | p :: q :: rest, first => (p.x * q.y - q.x * p.y) + crossSum (q :: rest) first

/-- Six times the first-order moment sums of a closed polygon (Green's formula). -/
def momentSum (coord : Point → ℤ) : List Point → Point → ℤ
  | [], _ => 0
  | [p], first => (coord p + coord first) * (p.x * first.y - first.x * p.y)
  | p :: q :: rest, first =>
    (coord p + coord q) * (p.x * q.y - q.x * p.y) + momentSum coord (q :: rest) first

/-- The L1 length of a closed polygon; the perimeter when every edge is axis-aligned. -/
def axisLength : List Point → Point → ℤ
  | [], _ => 0
  | [p], first => |p.x - first.x| + |p.y - first.y|
  | p :: q :: rest, first => |p.x - q.x| + |p.y - q.y| + axisLength (q :: rest) first

/-- A stand-in for the OpenCV routines, exact on the sample data: per-pixel HSV conversion,
shoelace area, moments by Green's formula with OpenCV's sign normalisation (`m00 ≥ 0`),
bounding box by minimum and maximum, and a contour finder that returns the given outlines.
Blur, edge detection and polygon simplification are the identity. -/
def sampleCv (outlines : List Contour) : OpenCV where
  cvtColorBGR2HSV := fun m => ⟨m.rows, m.cols, fun r c => sampleHsvPixel (m.px r c)⟩
  cvtColorBGR2GRAY := fun m => m
  GaussianBlur := fun m _ _ => m
  Canny := fun m _ _ _ => m
  equalizeHistChannel := fun m _ => m
  findContours := fun _ => outlines
  arcLength := fun c _ => (axisLength c (c.headD ⟨0, 0⟩) : ℤ)
  boundingRect := fun c =>
    let xs := c.map Point.x
    let ys := c.map Point.y
    let x0 := xs.foldl min (xs.headD 0)
    let y0 := ys.foldl min (ys.headD 0)
    ⟨x0, y0, xs.foldl max (xs.headD 0) - x0 + 1, ys.foldl max (ys.headD 0) - y0 + 1⟩
  approxPolyDP := fun c _ _ => c
  contourArea := fun c => ((|crossSum c (c.headD ⟨0, 0⟩)| : ℤ) : ℚ) / 2
  moments := fun c =>
    let cs := crossSum c (c.headD ⟨0, 0⟩)
    ⟨((|cs| : ℤ) : ℚ) / 2,
      ((Int.sign cs * momentSum Point.x c (c.headD ⟨0, 0⟩) : ℤ) : ℚ) / 6,
      ((Int.sign cs * momentSum Point.y c (c.headD ⟨0, 0⟩) : ℤ) : ℚ) / 6⟩

/-- A 20 x 12 BGR frame: a dull blue background (60, 20, 20) with a white bar
(255, 255, 255) over rows 5 to 14 and columns 4 to 7. -/
def whiteBarFrame : Mat :=
  ⟨20, 12, fun r c =>
    if 5 ≤ r ∧ r ≤ 14 ∧ 4 ≤ c ∧ c ≤ 7 then ⟨255, 255, 255⟩ else ⟨60, 20, 20⟩⟩

/-- The outline of the white bar of `whiteBarFrame`. -/
def barOutline : Contour := [⟨4, 5⟩, ⟨7, 5⟩, ⟨7, 14⟩, ⟨4, 14⟩]

/-! ## The shape filter -/

theorem keepCondition_iff (area aspectRatio : ℚ) (approxSize : ℕ) :
    keepCondition area aspectRatio approxSize = true ↔
      (25 < area ∧ area < 500 ∧ 1.2 ≤ aspectRatio ∧ aspectRatio ≤ 3.5) ∨
      (area ≥ 500 ∧ 2 ≤ aspectRatio ∧ aspectRatio ≤ 6 ∧ 3 ≤ approxSize ∧ approxSize ≤ 8) := by
  simp [keepCondition, and_assoc]

theorem mem_filterContours (cv : OpenCV) (frame : Mat) (contours : List Contour)
    (c : Contour) :
    c ∈ filterContours cv frame contours ↔
      c ∈ contours ∧
        keepCondition (cv.contourArea c) (aspectRatioOf cv c) (approxSizeOf cv c) = true := by
  unfold filterContours
  by_cases he : contours.isEmpty = true
  · have : contours = [] := by simpa using he
    subst this
    simp
  · rw [if_neg he]
    simp only [List.mem_filterMap, List.mem_range]
    constructor
    · rintro ⟨j, hj, h⟩
      have h1 : contours.getD j [] = contours[j] := List.getD_eq_getElem _ _ hj
      have h2 : (contours.map (fun c => cv.arcLength c true)).getD j 0
          = cv.arcLength contours[j] true := by
        rw [List.getD_eq_getElem _ _ (by simpa using hj)]; simp
      have h3 : ((contours.map cv.boundingRect).map
          (fun b => (b.height : ℚ) / ((b.width : ℚ) + 1e-6))).getD j 0
          = aspectRatioOf cv contours[j] := by
        rw [List.getD_eq_getElem _ _ (by simpa using hj)]; simp [aspectRatioOf]
      rw [h1, h2, h3] at h
      split at h
      · rename_i hk
        cases h
        exact ⟨List.getElem_mem _, hk⟩
      · cases h
    · rintro ⟨hc, hk⟩
      obtain ⟨j, hj, rfl⟩ := List.getElem_of_mem hc
      refine ⟨j, hj, ?_⟩
      have h1 : contours.getD j [] = contours[j] := List.getD_eq_getElem _ _ hj
      have h2 : (contours.map (fun c => cv.arcLength c true)).getD j 0
          = cv.arcLength contours[j] true := by
        rw [List.getD_eq_getElem _ _ (by simpa using hj)]; simp
      have h3 : ((contours.map cv.boundingRect).map
          (fun b => (b.height : ℚ) / ((b.width : ℚ) + 1e-6))).getD j 0
          = aspectRatioOf cv contours[j] := by
        rw [List.getD_eq_getElem _ _ (by simpa using hj)]; simp [aspectRatioOf]
      rw [h1, h2, h3]
      unfold approxSizeOf at hk
      rw [if_pos hk]

/-- C1: `filterContours` keeps an outline of the input list exactly when
(25 < area < 500 and 1.2 ≤ aspectRatio ≤ 3.5) or (area ≥ 500 and 2 ≤ aspectRatio ≤ 6 and
3 ≤ simplifiedVertexCount ≤ 8); the same holds of the `if` condition on arbitrary inputs;
for an area below 500 the vertex count has no influence; (100, 2.0, 5) is accepted and
(600, 1.5) is rejected for every vertex count. -/
theorem C1_filterContours_keeps_iff :
    (∀ (cv : OpenCV) (frame : Mat) (contours : List Contour) (c : Contour),
      c ∈ filterContours cv frame contours ↔
        c ∈ contours ∧
          ((25 < cv.contourArea c ∧ cv.contourArea c < 500 ∧
              1.2 ≤ aspectRatioOf cv c ∧ aspectRatioOf cv c ≤ 3.5) ∨
            (cv.contourArea c ≥ 500 ∧ 2 ≤ aspectRatioOf cv c ∧ aspectRatioOf cv c ≤ 6 ∧
              3 ≤ approxSizeOf cv c ∧ approxSizeOf cv c ≤ 8))) ∧
    (∀ (area aspectRatio : ℚ) (approxSize : ℕ),
      keepCondition area aspectRatio approxSize = true ↔
        (25 < area ∧ area < 500 ∧ 1.2 ≤ aspectRatio ∧ aspectRatio ≤ 3.5) ∨
        (area ≥ 500 ∧ 2 ≤ aspectRatio ∧ aspectRatio ≤ 6 ∧ 3 ≤ approxSize ∧ approxSize ≤ 8)) ∧
    (∀ (area aspectRatio : ℚ) (n m : ℕ), area < 500 →
      keepCondition area aspectRatio n = keepCondition area aspectRatio m) ∧
    keepCondition 100 2.0 5 = true ∧
    (∀ n : ℕ, keepCondition 600 1.5 n = false) := by
  refine ⟨?_, keepCondition_iff, ?_, ?_, ?_⟩
  · intro cv frame contours c
    rw [mem_filterContours, keepCondition_iff]
  · intro area aspectRatio n m h
    have h5 : ¬ (500 ≤ area) := not_le.mpr h
    simp [keepCondition, h5]
  · rw [keepCondition_iff]
    left
    norm_num
  · intro n
    rw [Bool.eq_false_iff, Ne, keepCondition_iff]
    norm_num

/-- C1, at a concrete instance: area 100 and aspect ratio 2.0 with 5 or with 100 vertices. -/
theorem C1_filterContours_keeps_iff_witness :
    (100 : ℚ) < 500 ∧ keepCondition 100 2.0 5 = keepCondition 100 2.0 100 :=
  ⟨by norm_num, C1_filterContours_keeps_iff.2.2.1 100 2.0 5 100 (by norm_num)⟩

/-! ## The brightness validator -/

theorem isBrighter_fin (frame : Mat) (point : Point) (avgS avgB : ℚ) :
    isBrighterAndMoreSaturatedThanAverage frame point (.fin avgS) (.fin avgB) = true ↔
      (if avgS = 0 then (0 : ℚ) < ((frame.atPoint point).c1 : ℕ)
        else (((frame.atPoint point).c1 : ℕ) - avgS) / avgS > 0.3) ∧
      (if avgB = 0 then (0 : ℚ) < ((frame.atPoint point).c2 : ℕ)
        else (((frame.atPoint point).c2 : ℕ) - avgB) / avgB > 0.3) := by
  have key : ∀ (s a : ℚ), 0 ≤ s →
      (Dbl.gt (Dbl.div (Dbl.sub (.fin s) (.fin a)) (.fin a)) (.fin 0.3) = true ↔
        (if a = 0 then 0 < s else (s - a) / a > 0.3)) := by
    intro s a hs
    by_cases ha : a = 0
    · subst ha
      rcases hs.lt_or_eq with h | h
      · simp [Dbl.sub, Dbl.div, Dbl.gt, h]
      · subst h
        simp [Dbl.sub, Dbl.div, Dbl.gt]
    · simp [Dbl.sub, Dbl.div, Dbl.gt, ha]
  unfold isBrighterAndMoreSaturatedThanAverage
  have k1 := key ((frame.atPoint point).c1 : ℕ) avgS (Nat.cast_nonneg _)
  have k2 := key ((frame.atPoint point).c2 : ℕ) avgB (Nat.cast_nonneg _)
  rw [← k1, ← k2]
  simp

theorem foldl_pair_add {β : Type} (l : List β) (f g : β → ℚ) (acc : ℚ × ℚ) :
    l.foldl (fun acc x => (acc.1 + f x, acc.2 + g x)) acc
      = (acc.1 + (l.map f).sum, acc.2 + (l.map g).sum) := by
  induction l generalizing acc with
  | nil => simp
  | cons a l ih => simp [ih, add_assoc]

theorem channelSums_eq (hsv : Mat) :
    channelSums hsv = ((natSum1 hsv : ℚ), (natSum2 hsv : ℚ)) := by
  unfold channelSums natSum1 natSum2
  have inner : ∀ (row : ℕ) (acc : ℚ × ℚ),
      (List.range hsv.cols).foldl
        (fun (acc : ℚ × ℚ) (col : ℕ) =>
          let hsvPixel := hsv.px row col
          (acc.1 + (hsvPixel.c1 : ℕ), acc.2 + (hsvPixel.c2 : ℕ))) acc
      = (acc.1 + (((List.range hsv.cols).map
            (fun (col : ℕ) => ((hsv.px row col).c1 : ℕ))).sum : ℕ),
          acc.2 + (((List.range hsv.cols).map
            (fun (col : ℕ) => ((hsv.px row col).c2 : ℕ))).sum : ℕ)) := by
    intro row acc
    have h := foldl_pair_add (List.range hsv.cols)
      (fun (col : ℕ) => (((hsv.px row col).c1 : ℕ) : ℚ))
      (fun (col : ℕ) => (((hsv.px row col).c2 : ℕ) : ℚ)) acc
    rw [h]
    simp [Nat.cast_list_sum, List.map_map, Function.comp_def]
  simp only [inner]
  rw [foldl_pair_add (List.range hsv.rows)
    (fun (row : ℕ) => ((((List.range hsv.cols).map
      (fun (col : ℕ) => ((hsv.px row col).c1 : ℕ))).sum : ℕ) : ℚ))
    (fun (row : ℕ) => ((((List.range hsv.cols).map
      (fun (col : ℕ) => ((hsv.px row col).c2 : ℕ))).sum : ℕ) : ℚ))]
  simp [Nat.cast_list_sum, List.map_map, Function.comp_def]

theorem sum_map_le {β : Type} (l : List β) (f : β → ℕ) (B : ℕ) (hf : ∀ x, f x ≤ B) :
    (l.map f).sum ≤ l.length * B := by
  induction l with
  | nil => simp
  | cons a l ih =>
    simp only [List.map_cons, List.sum_cons, List.length_cons]
    have := hf a
    nlinarith

theorem natSum1_le (hsv : Mat) : natSum1 hsv ≤ hsv.rows * hsv.cols * 255 := by
  unfold natSum1
  have h := sum_map_le (List.range hsv.rows)
    (fun (row : ℕ) => ((List.range hsv.cols).map (fun (col : ℕ) => ((hsv.px row col).c1 : ℕ))).sum)
    (hsv.cols * 255)
    (fun row => by
      have := sum_map_le (List.range hsv.cols) (fun (col : ℕ) => ((hsv.px row col).c1 : ℕ)) 255
        (fun col => Nat.le_of_lt_succ (hsv.px row col).c1.isLt)
      simpa using this)
  simpa [mul_assoc] using h

theorem natSum2_le (hsv : Mat) : natSum2 hsv ≤ hsv.rows * hsv.cols * 255 := by
  unfold natSum2
  have h := sum_map_le (List.range hsv.rows)
    (fun (row : ℕ) => ((List.range hsv.cols).map (fun (col : ℕ) => ((hsv.px row col).c2 : ℕ))).sum)
    (hsv.cols * 255)
    (fun row => by
      have := sum_map_le (List.range hsv.cols) (fun (col : ℕ) => ((hsv.px row col).c2 : ℕ)) 255
        (fun col => Nat.le_of_lt_succ (hsv.px row col).c2.isLt)
      simpa using this)
  simpa [mul_assoc] using h

theorem natSum_constFrame (rows cols : ℕ) (p : Vec3b) :
    natSum1 (constFrame rows cols p) = rows * (cols * p.c1) ∧
      natSum2 (constFrame rows cols p) = rows * (cols * p.c2) := by
  simp [natSum1, natSum2, constFrame]

theorem wrapInt32_of_lt (z : ℤ) (h0 : 0 ≤ z) (h : z < 2 ^ 31) : wrapInt32 z = z := by
  unfold wrapInt32
  omega

theorem calculateAverage_eq (cv : OpenCV) (frame : Mat) :
    calculateAverageSaturationAndBrightness cv frame =
      (Dbl.div (.fin (natSum1 (cv.cvtColorBGR2HSV frame)))
          (.fin (wrapInt32 (((cv.cvtColorBGR2HSV frame).rows : ℤ)
            * ((cv.cvtColorBGR2HSV frame).cols : ℤ)) : ℤ)),
        Dbl.div (.fin (natSum2 (cv.cvtColorBGR2HSV frame)))
          (.fin (wrapInt32 (((cv.cvtColorBGR2HSV frame).rows : ℤ)
            * ((cv.cvtColorBGR2HSV frame).cols : ℤ)) : ℤ))) := by
  unfold calculateAverageSaturationAndBrightness
  simp only [channelSums_eq]

theorem sampleCv_cvtColor_constFrame (outlines : List Contour) (rows cols : ℕ) (p : Vec3b) :
    (sampleCv outlines).cvtColorBGR2HSV (constFrame rows cols p)
      = constFrame rows cols (sampleHsvPixel p) := rfl

/-- C9, as stated, fails: a frame of 65536 rows and 32768 columns whose every pixel is pure
red (HSV saturation 255 and value 255) has 2^31 pixels; `int pixelCount` wraps to -2^31 and
both returned averages are -255, outside [0, 255]. -/
theorem C9_average_range_counterexample :
    0 < (constFrame 65536 32768 ⟨0, 0, 255⟩).rows * (constFrame 65536 32768 ⟨0, 0, 255⟩).cols ∧
      calculateAverageSaturationAndBrightness (sampleCv []) (constFrame 65536 32768 ⟨0, 0, 255⟩)
        = (Dbl.fin (-255), Dbl.fin (-255)) := by
  refine ⟨by norm_num [constFrame], ?_⟩
  rw [calculateAverage_eq]
  have hp : sampleHsvPixel ⟨0, 0, 255⟩ = ⟨0, 255, 255⟩ := by decide
  rw [sampleCv_cvtColor_constFrame, hp, (natSum_constFrame _ _ _).1,
    (natSum_constFrame _ _ _).2]
  have hw : wrapInt32 (((constFrame 65536 32768 ⟨0, 255, 255⟩).rows : ℤ)
      * ((constFrame 65536 32768 ⟨0, 255, 255⟩).cols : ℤ)) = -2147483648 := by
    norm_num [constFrame, wrapInt32]
  rw [hw]
  norm_num [Dbl.div, Fin.coe_ofNat_eq_mod]

/-- C9, amended: for every frame whose HSV image is non-empty and has fewer than 2^31
pixels, both returned averages are finite, equal the channel sum divided by rows * cols,
and lie in the closed range [0, 255]. -/
theorem C9_average_range (cv : OpenCV) (frame : Mat)
    (hpos : 0 < (cv.cvtColorBGR2HSV frame).rows * (cv.cvtColorBGR2HSV frame).cols)
    (hlt : (cv.cvtColorBGR2HSV frame).rows * (cv.cvtColorBGR2HSV frame).cols < 2 ^ 31) :
    ∃ s b : ℚ,
      calculateAverageSaturationAndBrightness cv frame = (Dbl.fin s, Dbl.fin b) ∧
      s = (natSum1 (cv.cvtColorBGR2HSV frame) : ℚ)
        / ((cv.cvtColorBGR2HSV frame).rows * (cv.cvtColorBGR2HSV frame).cols : ℕ) ∧
      b = (natSum2 (cv.cvtColorBGR2HSV frame) : ℚ)
        / ((cv.cvtColorBGR2HSV frame).rows * (cv.cvtColorBGR2HSV frame).cols : ℕ) ∧
      0 ≤ s ∧ s ≤ 255 ∧ 0 ≤ b ∧ b ≤ 255 := by
  set hsv := cv.cvtColorBGR2HSV frame with hhsv
  have hw : wrapInt32 ((hsv.rows : ℤ) * (hsv.cols : ℤ)) = ((hsv.rows * hsv.cols : ℕ) : ℤ) := by
    rw [wrapInt32_of_lt]
    · push_cast; rfl
    · positivity
    · exact_mod_cast hlt
  have hn : (0 : ℚ) < ((hsv.rows * hsv.cols : ℕ) : ℚ) := by exact_mod_cast hpos
  have h1 : (natSum1 hsv : ℚ) ≤ ((hsv.rows * hsv.cols : ℕ) : ℚ) * 255 := by
    exact_mod_cast natSum1_le hsv
  have h2 : (natSum2 hsv : ℚ) ≤ ((hsv.rows * hsv.cols : ℕ) : ℚ) * 255 := by
    exact_mod_cast natSum2_le hsv
  refine ⟨_, _, ?_, rfl, rfl, ?_, ?_, ?_, ?_⟩
  · rw [calculateAverage_eq, ← hhsv, hw]
    have hne : (((hsv.rows * hsv.cols : ℕ) : ℤ) : ℚ) ≠ 0 := by
      have : (((hsv.rows * hsv.cols : ℕ) : ℤ) : ℚ) = ((hsv.rows * hsv.cols : ℕ) : ℚ) := by
        push_cast; rfl
      rw [this]; exact hn.ne'
    simp only [Dbl.div, if_neg hne]
    congr 2
  · positivity
  · rw [div_le_iff₀ hn]; linarith
  · positivity
  · rw [div_le_iff₀ hn]; linarith

/-- C9 amended, on a 2 x 3 frame of pure red pixels: both averages are 255. -/
theorem C9_average_range_witness :
    ∃ s b : ℚ,
      calculateAverageSaturationAndBrightness (sampleCv []) (constFrame 2 3 ⟨0, 0, 255⟩)
        = (Dbl.fin s, Dbl.fin b) ∧ 0 ≤ s ∧ s ≤ 255 ∧ 0 ≤ b ∧ b ≤ 255 := by
  obtain ⟨s, b, h, -, -, hs⟩ :=
    C9_average_range (sampleCv []) (constFrame 2 3 ⟨0, 0, 255⟩)
      (by decide) (by decide)
  exact ⟨s, b, h, hs⟩

/-! ## The pairing loop -/

theorem ltPowTenth_iff (x a : ℚ) : ltPowTenth x a = true ↔ x ^ 10 < a := by
  simp [ltPowTenth]

theorem linkTest_iff (li lj : LampBar) :
    linkTest li lj = true ↔ |li.y - lj.y| ^ 10 < (li.area + lj.area) / 2 := by
  unfold linkTest
  exact ltPowTenth_iff _ _

theorem mem_examinedPairs (n i j : ℕ) : (i, j) ∈ examinedPairs n ↔ i < j ∧ j < n := by
  simp only [examinedPairs, List.mem_flatMap, List.mem_range, List.mem_map,
    List.mem_range'_1, Prod.mk.injEq]
  constructor
  · rintro ⟨a, ha, b, hb, rfl, rfl⟩
    omega
  · rintro ⟨h1, h2⟩
    exact ⟨i, by omega, j, by omega, rfl, rfl⟩

theorem nodup_examinedPairs (n : ℕ) : (examinedPairs n).Nodup := by
  unfold examinedPairs
  rw [List.nodup_flatMap]
  constructor
  · intro i _
    exact (List.nodup_range' _ _).map (fun a b h => (Prod.mk.inj h).2)
  · refine (List.nodup_range n).imp ?_
    intro a b hab
    simp only [Function.onFun]
    rw [List.disjoint_left]
    intro p hp hq
    simp only [List.mem_map] at hp hq
    obtain ⟨j, _, rfl⟩ := hp
    obtain ⟨k, _, hk⟩ := hq
    exact hab (Prod.mk.inj hk).1.symm

theorem sum_row_lengths (n k : ℕ) (hk : k ≤ n) :
    2 * ((List.range k).map (fun i => n - (i + 1))).sum + k * (k + 1) = 2 * k * n := by
  induction k with
  | zero => simp
  | succ k ih =>
    have ih' := ih (by omega)
    rw [List.range_succ, List.map_append, List.sum_append]
    simp only [List.map_cons, List.map_nil, List.sum_cons, List.sum_nil, add_zero]
    obtain ⟨d, hd⟩ : ∃ d, n = d + (k + 1) := ⟨n - (k + 1), by omega⟩
    subst hd
    simp only [Nat.add_sub_cancel] at ih' ⊢
    nlinarith

theorem length_examinedPairs (n : ℕ) : (examinedPairs n).length = n * (n - 1) / 2 := by
  unfold examinedPairs
  rw [List.length_flatMap]
  have h : (List.map (List.length ∘ fun i =>
      (List.range' (i + 1) (n - (i + 1))).map (fun j => (i, j))) (List.range n))
      = (List.range n).map (fun i => n - (i + 1)) := by
    apply List.map_congr_left
    intro i _
    simp
  rw [h]
  have key := sum_row_lengths n n le_rfl
  have h2 : n * (n - 1) = 2 * ((List.range n).map (fun i => n - (i + 1))).sum := by
    cases n with
    | zero => simp
    | succ m =>
      simp only [Nat.add_sub_cancel]
      nlinarith
  rw [h2]
  omega

theorem linkedPairs_sublist (lamps : List LampBar) :
    (linkedPairs lamps).Sublist (examinedPairs lamps.length) :=
  List.filter_sublist _

/-- C7: for a list of n validated bars the loop examines exactly the index pairs (i, j)
with i < j < n, each once (the list of examined pairs has no duplicate and n(n-1)/2
entries); no examined pair has i = j or is examined in both orders; the linked pairs are a
duplicate-free sublist of the examined ones, so at most n(n-1)/2 of them, never with i = j
and never in both orders. -/
theorem C7_pairs_examined_once (lamps : List LampBar) :
    (∀ i j : ℕ, (i, j) ∈ examinedPairs lamps.length ↔ i < j ∧ j < lamps.length) ∧
    (examinedPairs lamps.length).Nodup ∧
    (examinedPairs lamps.length).length = lamps.length * (lamps.length - 1) / 2 ∧
    (∀ i j : ℕ, (i, j) ∈ examinedPairs lamps.length →
      i ≠ j ∧ (j, i) ∉ examinedPairs lamps.length) ∧
    (linkedPairs lamps).Sublist (examinedPairs lamps.length) ∧
    (linkedPairs lamps).Nodup ∧
    (linkedPairs lamps).length ≤ lamps.length * (lamps.length - 1) / 2 ∧
    (∀ i j : ℕ, (i, j) ∈ linkedPairs lamps →
      i < j ∧ j < lamps.length ∧ (j, i) ∉ linkedPairs lamps) := by
  refine ⟨mem_examinedPairs _, nodup_examinedPairs _, length_examinedPairs _, ?_,
    linkedPairs_sublist _, (nodup_examinedPairs _).sublist (linkedPairs_sublist _), ?_, ?_⟩
  · intro i j h
    rw [mem_examinedPairs] at h ⊢
    omega
  · rw [← length_examinedPairs]
    exact (linkedPairs_sublist lamps).length_le
  · intro i j h
    have h1 := (linkedPairs_sublist lamps).subset h
    rw [mem_examinedPairs] at h1
    refine ⟨h1.1, h1.2, fun h2 => ?_⟩
    have h3 := (linkedPairs_sublist lamps).subset h2
    rw [mem_examinedPairs] at h3
    omega

/-- C7, on three bars at the same height: the three pairs (0,1), (0,2), (1,2) are examined
and all three are linked. -/
theorem C7_pairs_examined_once_witness :
    examinedPairs 3 = [(0, 1), (0, 2), (1, 2)] ∧
      (linkedPairs [⟨100, 0, 50, ⟨0, 0, 1, 1⟩⟩, ⟨100, 9, 50, ⟨9, 0, 1, 1⟩⟩,
        ⟨100, 20, 50, ⟨20, 0, 1, 1⟩⟩]).length ≤ 3 :=
  ⟨by decide,
    (C7_pairs_examined_once [⟨100, 0, 50, ⟨0, 0, 1, 1⟩⟩, ⟨100, 9, 50, ⟨9, 0, 1, 1⟩⟩,
        ⟨100, 20, 50, ⟨20, 0, 1, 1⟩⟩]).2.2.2.2.2.2.1⟩

/-! ## `matchLampBars` -/

theorem lampBarOfContour_eq_some (cv : OpenCV) (frame : Mat) (avgS avgB : Dbl) (c : Contour)
    (l : LampBar) (h : lampBarOfContour cv frame avgS avgB c = some l) :
    20 < cv.contourArea c ∧ l.area = cv.contourArea c ∧
      l.x = (truncToInt ((cv.moments c).m10 / (cv.moments c).m00 + 0.5) : ℤ) ∧
      l.y = (truncToInt ((cv.moments c).m01 / (cv.moments c).m00 + 0.5) : ℤ) ∧
      l.boundingBox = cv.boundingRect c ∧
      isBrighterAndMoreSaturatedThanAverage frame
        ⟨truncToInt ((cv.moments c).m10 / (cv.moments c).m00 + 0.5),
          truncToInt ((cv.moments c).m01 / (cv.moments c).m00 + 0.5)⟩ avgS avgB = true := by
  unfold lampBarOfContour at h
  simp only [] at h
  split at h
  · rename_i harea
    split at h
    · rename_i hb
      cases h
      exact ⟨by norm_num at harea; exact harea, rfl, rfl, rfl, rfl, hb⟩
    · cases h
  · cases h

theorem lampBarOfContour_small_area (cv : OpenCV) (frame : Mat) (avgS avgB : Dbl)
    (c : Contour) (h : cv.contourArea c ≤ 20) :
    lampBarOfContour cv frame avgS avgB c = none := by
  unfold lampBarOfContour
  have : ¬ (cv.contourArea c > 20.0) := by
    norm_num
    exact h
  simp only [if_neg this]

theorem keepCondition_area (area aspectRatio : ℚ) (n : ℕ)
    (h : keepCondition area aspectRatio n = true) : 25 < area := by
  rw [keepCondition_iff] at h
  rcases h with h | h
  · exact h.1
  · linarith [h.1]

theorem mem_matchLampBars (cv : OpenCV) (frame : Mat) (l : LampBar)
    (h : l ∈ matchLampBars cv frame) :
    ∃ c, c ∈ cv.findContours (detectEdges cv frame) ∧
      c ∈ filterContours cv (detectEdges cv frame) (cv.findContours (detectEdges cv frame)) ∧
      25 < cv.contourArea c ∧
      lampBarOfContour cv frame (calculateAverageSaturationAndBrightness cv frame).1
        (calculateAverageSaturationAndBrightness cv frame).2 c = some l := by
  unfold matchLampBars at h
  simp only [List.mem_filterMap] at h
  obtain ⟨c, hc, hl⟩ := h
  have hk := (mem_filterContours _ _ _ _).mp hc
  exact ⟨c, hk.1, hc, keepCondition_area _ _ _ hk.2, hl⟩

/-- C8: an outline whose area is ≤ 0 fails the `if` of `filterContours` whatever its aspect
ratio and vertex count, is never kept, and the loop body of `matchLampBars` yields no
LampBar for it; every LampBar that `matchLampBars` emits comes from a kept outline of area
above 25; and whenever the guard `area > 20.0` under which M10/M00 and M01/M00 are
evaluated holds, the divisor M00, equal in magnitude to the area, is non-zero. -/
theorem C8_degenerate_outlines_rejected :
    (∀ (cv : OpenCV) (frame : Mat) (contours : List Contour) (c : Contour),
      cv.contourArea c ≤ 0 →
        (∀ (aspectRatio : ℚ) (n : ℕ), keepCondition (cv.contourArea c) aspectRatio n = false) ∧
        c ∉ filterContours cv frame contours ∧
        (∀ (frame' : Mat) (avgS avgB : Dbl), lampBarOfContour cv frame' avgS avgB c = none)) ∧
    (∀ (cv : OpenCV) (frame : Mat) (l : LampBar), l ∈ matchLampBars cv frame →
      ∃ c, c ∈ filterContours cv (detectEdges cv frame)
          (cv.findContours (detectEdges cv frame)) ∧
        25 < cv.contourArea c ∧ l.area = cv.contourArea c ∧
        lampBarOfContour cv frame (calculateAverageSaturationAndBrightness cv frame).1
          (calculateAverageSaturationAndBrightness cv frame).2 c = some l) ∧
    (∀ (cv : OpenCV), (∀ c, |(cv.moments c).m00| = cv.contourArea c) →
      ∀ (frame : Mat) (avgS avgB : Dbl) (c : Contour),
        (cv.contourArea c > 20 → (cv.moments c).m00 ≠ 0) ∧
        (¬ cv.contourArea c > 20 → lampBarOfContour cv frame avgS avgB c = none)) := by
  refine ⟨?_, ?_, ?_⟩
  · intro cv frame contours c h
    have hk : ∀ (aspectRatio : ℚ) (n : ℕ),
        keepCondition (cv.contourArea c) aspectRatio n = false := by
      intro aspectRatio n
      rw [Bool.eq_false_iff]
      intro hk
      have := keepCondition_area _ _ _ hk
      linarith
    refine ⟨hk, ?_, ?_⟩
    · intro hc
      have := ((mem_filterContours _ _ _ _).mp hc).2
      rw [hk] at this
      cases this
    · intro frame' avgS avgB
      exact lampBarOfContour_small_area _ _ _ _ _ (by linarith)
  · intro cv frame l h
    obtain ⟨c, _, hc, ha, hl⟩ := mem_matchLampBars cv frame l h
    exact ⟨c, hc, ha, (lampBarOfContour_eq_some _ _ _ _ _ _ hl).2.1, hl⟩
  · intro cv hM frame avgS avgB c
    constructor
    · intro h hz
      have := hM c
      rw [hz] at this
      simp at this
      linarith
    · intro h
      exact lampBarOfContour_small_area _ _ _ _ _ (not_lt.mp h)

/-! ## The sample frame -/

theorem filterMap_ite_eq_filter {α : Type} (l : List α) (p : α → Bool) :
    l.filterMap (fun c => if p c = true then some c else none) = l.filter p := by
  induction l with
  | nil => rfl
  | cons c cs ih =>
    by_cases h : p c = true
    · simp [List.filterMap_cons, List.filter_cons, h, ih]
    · simp [List.filterMap_cons, List.filter_cons, h, ih]

theorem filterContours_eq_filter (cv : OpenCV) (frame : Mat) (contours : List Contour) :
    filterContours cv frame contours =
      contours.filter (fun c =>
        keepCondition (cv.contourArea c) (aspectRatioOf cv c) (approxSizeOf cv c)) := by
  unfold filterContours
  by_cases he : contours.isEmpty = true
  · have : contours = [] := by simpa using he
    subst this
    simp
  · rw [if_neg he]
    have hmap : (List.range contours.length).map (fun j => contours.getD j []) = contours := by
      apply List.ext_getElem
      · simp
      · intro i h1 h2
        simp only [List.getElem_map, List.getElem_range]
        exact List.getD_eq_getElem _ _ h2
    have hcongr : ∀ j ∈ List.range contours.length,
        (fun j =>
          let contour := contours.getD j []
          let epsilon := 0.02 * (contours.map (fun c => cv.arcLength c true)).getD j 0
          let approx := cv.approxPolyDP contour epsilon true
          let area := cv.contourArea contour
          if keepCondition area
              (((contours.map cv.boundingRect).map
                (fun b => (b.height : ℚ) / ((b.width : ℚ) + 1e-6))).getD j 0)
              approx.length then some contour else none) j
        = ((fun c => if keepCondition (cv.contourArea c) (aspectRatioOf cv c)
              (approxSizeOf cv c) then some c else none) ∘ (fun j => contours.getD j [])) j := by
      intro j hj
      rw [List.mem_range] at hj
      have h2 : (contours.map (fun c => cv.arcLength c true)).getD j 0
          = cv.arcLength (contours.getD j []) true := by
        rw [List.getD_eq_getElem _ _ (by simpa using hj), List.getD_eq_getElem _ _ hj]; simp
      have h3 : ((contours.map cv.boundingRect).map
          (fun b => (b.height : ℚ) / ((b.width : ℚ) + 1e-6))).getD j 0
          = aspectRatioOf cv (contours.getD j []) := by
        rw [List.getD_eq_getElem _ _ (by simpa using hj), List.getD_eq_getElem _ _ hj]
        simp [aspectRatioOf]
      simp only [Function.comp, h2, h3, approxSizeOf]
    rw [List.filterMap_congr hcongr, ← List.filterMap_map, hmap]
    exact filterMap_ite_eq_filter _ _

theorem sample_geometry :
    (sampleCv [barOutline]).contourArea barOutline = 27 ∧
    (sampleCv [barOutline]).moments barOutline = ⟨27, 297 / 2, 513 / 2⟩ ∧
    (sampleCv [barOutline]).boundingRect barOutline = ⟨4, 5, 4, 10⟩ ∧
    aspectRatioOf (sampleCv [barOutline]) barOutline = 10 / (4 + 1e-6) ∧
    approxSizeOf (sampleCv [barOutline]) barOutline = 4 := by
  have hc : crossSum barOutline (barOutline.headD ⟨0, 0⟩) = 54 := by decide
  have hx : momentSum Point.x barOutline (barOutline.headD ⟨0, 0⟩) = 891 := by decide
  have hy : momentSum Point.y barOutline (barOutline.headD ⟨0, 0⟩) = 1539 := by decide
  have hb : (sampleCv [barOutline]).boundingRect barOutline = ⟨4, 5, 4, 10⟩ := by decide
  have hs : Int.sign 54 = 1 := rfl
  refine ⟨?_, ?_, hb, ?_, ?_⟩
  · simp only [sampleCv, hc]
    norm_num
  · simp only [sampleCv, hc, hx, hy, hs]
    norm_num
  · rw [aspectRatioOf, hb]
    norm_num
  · rfl

set_option maxRecDepth 100000 in
theorem sample_sums :
    natSum1 ((sampleCv [barOutline]).cvtColorBGR2HSV whiteBarFrame) = 34000 ∧
    natSum2 ((sampleCv [barOutline]).cvtColorBGR2HSV whiteBarFrame) = 22200 := by
  constructor <;> decide

theorem sample_average :
    calculateAverageSaturationAndBrightness (sampleCv [barOutline]) whiteBarFrame
      = (Dbl.fin (425 / 3), Dbl.fin (185 / 2)) := by
  rw [calculateAverage_eq, sample_sums.1, sample_sums.2]
  have hw : wrapInt32 ((((sampleCv [barOutline]).cvtColorBGR2HSV whiteBarFrame).rows : ℤ)
      * (((sampleCv [barOutline]).cvtColorBGR2HSV whiteBarFrame).cols : ℤ)) = 240 := by
    decide
  rw [hw]
  norm_num [Dbl.div]

theorem sample_centre :
    truncToInt (((sampleCv [barOutline]).moments barOutline).m10
        / ((sampleCv [barOutline]).moments barOutline).m00 + 0.5) = 6 ∧
    truncToInt (((sampleCv [barOutline]).moments barOutline).m01
        / ((sampleCv [barOutline]).moments barOutline).m00 + 0.5) = 10 := by
  rw [sample_geometry.2.1]
  have h1 : ((297 : ℚ) / 2 / 27 + 0.5) = ((6 : ℤ) : ℚ) := by norm_num
  have h2 : ((513 : ℚ) / 2 / 27 + 0.5) = ((10 : ℤ) : ℚ) := by norm_num
  simp only [h1, h2, truncToInt]
  constructor
  · rw [if_pos (by norm_num), Int.floor_intCast]
  · rw [if_pos (by norm_num), Int.floor_intCast]

theorem sample_validated :
    isBrighterAndMoreSaturatedThanAverage whiteBarFrame ⟨6, 10⟩
      (Dbl.fin (425 / 3)) (Dbl.fin (185 / 2)) = true := by
  rw [isBrighter_fin]
  have hp : whiteBarFrame.atPoint ⟨6, 10⟩ = ⟨255, 255, 255⟩ := by decide
  rw [hp]
  norm_num [Fin.coe_ofNat_eq_mod]

theorem sample_lampBar :
    lampBarOfContour (sampleCv [barOutline]) whiteBarFrame
      (Dbl.fin (425 / 3)) (Dbl.fin (185 / 2)) barOutline
      = some ⟨27, 6, 10, ⟨4, 5, 4, 10⟩⟩ := by
  unfold lampBarOfContour
  simp only [sample_centre.1, sample_centre.2, sample_geometry.1, sample_geometry.2.2.1,
    sample_validated]
  norm_num

theorem matchLampBars_sample :
    matchLampBars (sampleCv [barOutline]) whiteBarFrame = [⟨27, 6, 10, ⟨4, 5, 4, 10⟩⟩] := by
  unfold matchLampBars
  simp only []
  rw [filterContours_eq_filter, sample_average]
  have hfind : (sampleCv [barOutline]).findContours
      (detectEdges (sampleCv [barOutline]) whiteBarFrame) = [barOutline] := rfl
  have hkeep : keepCondition ((sampleCv [barOutline]).contourArea barOutline)
      (aspectRatioOf (sampleCv [barOutline]) barOutline)
      (approxSizeOf (sampleCv [barOutline]) barOutline) = true := by
    rw [sample_geometry.1, sample_geometry.2.2.2.1, sample_geometry.2.2.2.2, keepCondition_iff]
    left
    norm_num
  rw [hfind]
  simp only [List.filter_cons, hkeep, if_true, List.filter_nil, List.filterMap_cons,
    sample_lampBar, List.filterMap_nil]

theorem sampleCv_m00 (outlines : List Contour) (c : Contour) :
    |((sampleCv outlines).moments c).m00| = (sampleCv outlines).contourArea c := by
  simp only [sampleCv]
  exact abs_of_nonneg (by positivity)

/-- C8, on the sample data: the bar outline of area 27 passes the guard and its M00 is not
zero; the degenerate two-point outline of area 0 is not kept and yields no LampBar. -/
theorem C8_degenerate_outlines_rejected_witness :
    ((sampleCv [barOutline]).contourArea barOutline > 20 ∧
      ((sampleCv [barOutline]).moments barOutline).m00 ≠ 0) ∧
    ((sampleCv [barOutline]).contourArea [⟨1, 1⟩, ⟨5, 1⟩] ≤ 0 ∧
      [⟨1, 1⟩, ⟨5, 1⟩] ∉ filterContours (sampleCv [barOutline]) whiteBarFrame
        [barOutline, [⟨1, 1⟩, ⟨5, 1⟩]]) := by
  have ha : (sampleCv [barOutline]).contourArea barOutline > 20 := by
    rw [sample_geometry.1]; norm_num
  have hz : (sampleCv [barOutline]).contourArea [⟨1, 1⟩, ⟨5, 1⟩] ≤ 0 := by
    have hc : crossSum [⟨1, 1⟩, ⟨5, 1⟩] (List.headD [⟨1, 1⟩, ⟨5, 1⟩] ⟨0, 0⟩) = 0 := by decide
    simp only [sampleCv, hc]
    norm_num
  exact ⟨⟨ha, (C8_degenerate_outlines_rejected.2.2 (sampleCv [barOutline])
      (sampleCv_m00 [barOutline]) whiteBarFrame .nan .nan barOutline).1 ha⟩,
    hz, (C8_degenerate_outlines_rejected.1 (sampleCv [barOutline]) whiteBarFrame
      [barOutline, [⟨1, 1⟩, ⟨5, 1⟩]] [⟨1, 1⟩, ⟨5, 1⟩] hz).2.1⟩

/-- C4, on the code: in the sample frame the outline of the white bar has its centroid at
(6, 10). The HSV conversion of the frame has saturation 0 there, below the average 425/3,
so validating channels 1 and 2 of the HSV image rejects the bar; `matchLampBars` passes
the unconverted frame, whose channels 1 and 2 there are green 255 and red 255, and the bar
is emitted. -/
theorem C4_validator_reads_unconverted_frame :
    calculateAverageSaturationAndBrightness (sampleCv [barOutline]) whiteBarFrame
      = (Dbl.fin (425 / 3), Dbl.fin (185 / 2)) ∧
    whiteBarFrame.atPoint ⟨6, 10⟩ = ⟨255, 255, 255⟩ ∧
    ((sampleCv [barOutline]).cvtColorBGR2HSV whiteBarFrame).atPoint ⟨6, 10⟩ = ⟨0, 0, 255⟩ ∧
    isBrighterAndMoreSaturatedThanAverage
      ((sampleCv [barOutline]).cvtColorBGR2HSV whiteBarFrame) ⟨6, 10⟩
      (Dbl.fin (425 / 3)) (Dbl.fin (185 / 2)) = false ∧
    matchLampBars (sampleCv [barOutline]) whiteBarFrame = [⟨27, 6, 10, ⟨4, 5, 4, 10⟩⟩] := by
  have hp : ((sampleCv [barOutline]).cvtColorBGR2HSV whiteBarFrame).atPoint ⟨6, 10⟩
      = ⟨0, 0, 255⟩ := by decide
  refine ⟨sample_average, by decide, hp, ?_, matchLampBars_sample⟩
  rw [Bool.eq_false_iff, Ne, isBrighter_fin, hp]
  norm_num [Fin.coe_ofNat_eq_mod]

theorem linkTest_integer_rows (bi bj : LampBar) (hi : 25 < bi.area) (hj : 25 < bj.area)
    (hyi : ∃ z : ℤ, bi.y = z) (hyj : ∃ z : ℤ, bj.y = z)
    (havg : (bi.area + bj.area) / 2 ≤ 1024) :
    linkTest bi bj = true ↔ |bi.y - bj.y| ≤ 1 := by
  obtain ⟨zi, hzi⟩ := hyi
  obtain ⟨zj, hzj⟩ := hyj
  rw [linkTest_iff, hzi, hzj]
  have hcast : |(zi : ℚ) - zj| = ((|zi - zj| : ℤ) : ℚ) := by push_cast; rfl
  rw [hcast]
  have hd0 : (0 : ℤ) ≤ |zi - zj| := abs_nonneg _
  generalize |zi - zj| = d at hd0
  have hd0' : (0 : ℚ) ≤ (d : ℚ) := by exact_mod_cast hd0
  rcases le_or_lt d 1 with h | h
  · have h1 : (d : ℚ) ≤ 1 := by exact_mod_cast h
    have h2 : (d : ℚ) ^ 10 ≤ 1 := pow_le_one₀ hd0' h1
    constructor
    · intro _; exact h1
    · intro _; linarith
  · have h1 : (2 : ℚ) ≤ (d : ℚ) := by exact_mod_cast h
    have h2 : (2 : ℚ) ^ 10 ≤ (d : ℚ) ^ 10 := pow_le_pow_left₀ (by norm_num) h1 10
    constructor
    · intro h3; norm_num at h2; linarith
    · intro h3; linarith

theorem tenth_root_bounds (a : ℚ) (h25 : 25 < a) (h1024 : a ≤ 1024) :
    1 < (a : ℝ) ^ (0.1 : ℝ) ∧ (a : ℝ) ^ (0.1 : ℝ) ≤ 2 ∧
      (a < 1024 → (a : ℝ) ^ (0.1 : ℝ) < 2) := by
  have ha : (25 : ℝ) < (a : ℝ) := by exact_mod_cast h25
  have hb : (a : ℝ) ≤ 1024 := by exact_mod_cast h1024
  have h2 : (1024 : ℝ) ^ (0.1 : ℝ) = 2 := by
    have h := Real.pow_rpow_inv_natCast (by norm_num : (0 : ℝ) ≤ 2) (by norm_num : (10 : ℕ) ≠ 0)
    have he : (((10 : ℕ) : ℝ))⁻¹ = (0.1 : ℝ) := by norm_num
    have h10 : (2 : ℝ) ^ 10 = 1024 := by norm_num
    rw [he, h10] at h
    exact h
  refine ⟨Real.one_lt_rpow (by linarith) (by norm_num), ?_, ?_⟩
  · rw [← h2]
    exact Real.rpow_le_rpow (by linarith) hb (by norm_num)
  · intro hlt
    have hlt' : (a : ℝ) < 1024 := by exact_mod_cast hlt
    rw [← h2]
    exact Real.rpow_lt_rpow (by linarith) hlt' (by norm_num)

/-- C10: every LampBar emitted by `matchLampBars` has area above 25 and an integer y; for
two such bars whose average area is at most 1024 the pairing test holds exactly when their
y coordinates differ by at most 1; on that range the threshold avgArea ^ 0.1 is above 1 and
at most 2, below 2 when avgArea < 1024; and a linked pair with a y difference of 2 or more
has an average area above 1024. -/
theorem C10_small_bars_link_iff_rows_adjacent :
    (∀ (cv : OpenCV) (frame : Mat) (b : LampBar), b ∈ matchLampBars cv frame →
      25 < b.area ∧ ∃ z : ℤ, b.y = z) ∧
    (∀ (cv : OpenCV) (frame : Mat) (bi bj : LampBar),
      bi ∈ matchLampBars cv frame → bj ∈ matchLampBars cv frame →
      (bi.area + bj.area) / 2 ≤ 1024 →
      (linkTest bi bj = true ↔ |bi.y - bj.y| ≤ 1)) ∧
    (∀ bi bj : LampBar, 25 < bi.area → 25 < bj.area →
      (∃ z : ℤ, bi.y = z) → (∃ z : ℤ, bj.y = z) → (bi.area + bj.area) / 2 ≤ 1024 →
      (linkTest bi bj = true ↔ |bi.y - bj.y| ≤ 1)) ∧
    (∀ a : ℚ, 25 < a → a ≤ 1024 →
      1 < (a : ℝ) ^ (0.1 : ℝ) ∧ (a : ℝ) ^ (0.1 : ℝ) ≤ 2 ∧
        (a < 1024 → (a : ℝ) ^ (0.1 : ℝ) < 2)) ∧
    (∀ bi bj : LampBar, linkTest bi bj = true → 2 ≤ |bi.y - bj.y| →
      1024 < (bi.area + bj.area) / 2) := by
  have hmem : ∀ (cv : OpenCV) (frame : Mat) (b : LampBar), b ∈ matchLampBars cv frame →
      25 < b.area ∧ ∃ z : ℤ, b.y = z := by
    intro cv frame b hb
    obtain ⟨c, _, _, ha, hl⟩ := mem_matchLampBars cv frame b hb
    have h := lampBarOfContour_eq_some _ _ _ _ _ _ hl
    exact ⟨by rw [h.2.1]; exact ha, _, h.2.2.2.1⟩
  refine ⟨hmem, ?_, linkTest_integer_rows, tenth_root_bounds, ?_⟩
  · intro cv frame bi bj hi hj havg
    exact linkTest_integer_rows bi bj (hmem cv frame bi hi).1 (hmem cv frame bj hj).1
      (hmem cv frame bi hi).2 (hmem cv frame bj hj).2 havg
  · intro bi bj h hd
    rw [linkTest_iff] at h
    have h2 : (2 : ℚ) ^ 10 ≤ |bi.y - bj.y| ^ 10 := pow_le_pow_left₀ (by norm_num) hd 10
    norm_num at h2
    linarith

/-- C10, on the sample frame (its one emitted bar has area 27 and y = 10) and on the two
bars (area 100, y 50) and (area 110, y 51), which are linked. -/
theorem C10_small_bars_link_iff_rows_adjacent_witness :
    (∀ b ∈ matchLampBars (sampleCv [barOutline]) whiteBarFrame,
      25 < b.area ∧ ∃ z : ℤ, b.y = z) ∧
    matchLampBars (sampleCv [barOutline]) whiteBarFrame ≠ [] ∧
    linkTest ⟨100, 3, 50, ⟨0, 40, 6, 20⟩⟩ ⟨110, 30, 51, ⟨27, 41, 6, 20⟩⟩ = true :=
  ⟨fun b hb => C10_small_bars_link_iff_rows_adjacent.1 _ _ b hb,
    by rw [matchLampBars_sample]; exact List.cons_ne_nil _ _,
    (C10_small_bars_link_iff_rows_adjacent.2.2.1 ⟨100, 3, 50, ⟨0, 40, 6, 20⟩⟩
      ⟨110, 30, 51, ⟨27, 41, 6, 20⟩⟩ (by norm_num) (by norm_num) ⟨50, by norm_num⟩
      ⟨51, by norm_num⟩ (by norm_num)).mpr (by norm_num [abs_of_neg])⟩

end LampDetect
